import Mathlib

/-!
Verification development for the calendar-spread earnings screener
(`src/calendar_spread`): a shallow embedding in Lean 4 of the volatility
analytics pipeline (term-structure interpolation, Yang-Zhang realized
volatility, ATM selection, rating classification, batch sorting, and the
market-cap gate), with theorems settling the specified properties.

Conventions of the embedding:
* Python floats are modelled as `ℚ` where the code only does field
  arithmetic and comparisons, and as `ℝ` where it takes `log`/`sqrt`.
* A Python function that can raise is modelled with `Option`/`Except`;
  in particular a division whose denominator can be zero is modelled as
  `Except.error "ZeroDivisionError"` on that input, mirroring Python
  semantics where `x / 0` raises.
* `None` propagation / truthiness tests are modelled with `Option` and
  explicit matches.
-/

/-! ## Rating classification (earnings_calendar.py, get_earnings_for_date) -/

/-- Ratings assigned by the screener. A row can also receive no rating,
modelled as `Option Rating = none`. -/
inductive Rating where
  | Go : Rating
  | Consider : Rating
deriving DecidableEq

/-- Embedding of the rating loop of `earnings_calendar.py` (lines 242-253):
`if not row['ts_slope_0_45']: continue` (no rating);
`if row['avg_volume'] or row['iv30_rv30']:` then
`if row['ts_slope_0_45'] and row['avg_volume'] and row['iv30_rv30']` gives
Go else Consider; otherwise the row keeps no rating. -/
def assign_rating (slope_flag avg_volume_flag iv30_rv30_flag : Bool) : Option Rating :=
  if !slope_flag then none
  else if avg_volume_flag || iv30_rv30_flag then
    (if slope_flag && avg_volume_flag && iv30_rv30_flag then some Rating.Go
     else some Rating.Consider)
  else none

/-- The rating rule as the specification words it: if `slope_flag` is false,
no rating; else if both `avg_volume_flag` and `iv30_rv30_flag`, Go; else if
at least one of them, Consider; otherwise no rating. Used to compare the
code's rating loop against the spec sentence. -/
def spec_rating (slope_flag avg_volume_flag iv30_rv30_flag : Bool) : Option Rating :=
  if slope_flag = false then none
  else if avg_volume_flag = true ∧ iv30_rv30_flag = true then some Rating.Go
  else if avg_volume_flag = true ∨ iv30_rv30_flag = true then some Rating.Consider
  else none

/-- Threshold from `trade_rec.py` line 208: `avg_volume >= 1500000`. -/
def avg_volume_flag_of (avg_volume : ℚ) : Bool := avg_volume ≥ 1500000

/-- Threshold from `trade_rec.py` line 208: `iv30_rv30 >= 1.25`. -/
def iv30_rv30_flag_of (iv30_rv30 : ℚ) : Bool := iv30_rv30 ≥ 1.25

/-- Threshold from `trade_rec.py` line 208: `ts_slope_0_45 <= -0.00406`. -/
def slope_flag_of (ts_slope_0_45 : ℚ) : Bool := ts_slope_0_45 ≤ -0.00406

/-! ## Market-cap gates (earnings_calendar.py and earnings_calendar_v2.py) -/

/-- Market-cap text as scraped and then parsed by
`is_market_cap_over_threshold` in `earnings_calendar.py`. Each constructor
is one branch of the Python parser: empty string, a number suffixed by
`T`/`B`/`M`, a raw number, or text on which `float()` raises. -/
inductive CapText where
  | empty : CapText
  | withT (v : ℚ) : CapText
  | withB (v : ℚ) : CapText
  | withM (v : ℚ) : CapText
  | raw (v : ℚ) : CapText
  | unparseable : CapText
deriving DecidableEq

/-- Embedding of `is_market_cap_over_threshold` from `earnings_calendar.py`
(lines 12-47): empty text returns False; `T` multiplies by 1e6, `B` by 1e3,
`M` by 1, a raw number is divided by 1e6, each compared strictly against
the threshold in millions; any parsing error returns False. -/
def is_market_cap_over_threshold (market_cap_text : CapText)
    (threshold_millions : ℚ := 750) : Bool :=
  match market_cap_text with
  | CapText.empty => false
  | CapText.withT v => v * 1000000 > threshold_millions
  | CapText.withB v => v * 1000 > threshold_millions
  | CapText.withM v => v > threshold_millions
  | CapText.raw v => v / 1000000 > threshold_millions
  | CapText.unparseable => false

/-- Embedding of `IBMarketCapFilter.is_market_cap_over_threshold` from
`earnings_calendar_v2.py` (lines 115-132): when `get_market_cap` returned
`None` the symbol is included (True); otherwise compare strictly against
the threshold. -/
def ib_is_market_cap_over_threshold (market_cap : Option ℚ)
    (threshold_millions : ℚ := 750) : Bool :=
  match market_cap with
  | none => true
  | some v => v > threshold_millions

/-! ## Expected move (trade_rec.py line 206 / trade_rec_v2.py line 248) -/

/-- Python's `round(x, 2)` on an exact rational: round half to even at two
decimal places. -/
def pyRound2 (x : ℚ) : ℚ :=
  let y := x * 100
  let f : ℤ := ⌊y⌋
  let r := y - f
  (if r < 1/2 then (f : ℚ)
   else if r > 1/2 then (f : ℚ) + 1
   else if f % 2 = 0 then (f : ℚ) else (f : ℚ) + 1) / 100

/-- Embedding of
`expected_move = str(round(straddle / underlying_price * 100, 2)) + "%" if straddle else None`:
the condition is Python truthiness of `straddle`, so both `None` and `0.0`
yield `None`. The `"%"`-suffixed string is modelled by its numeric value. -/
def expected_move_of (straddle : Option ℚ) (underlying_price : ℚ) : Option ℚ :=
  match straddle with
  | none => none
  | some s => if s ≠ 0 then some (pyRound2 (s / underlying_price * 100)) else none

/-! ## Expiration filtering and the slope computation (trade_rec.py) -/

/-- Embedding of `filter_dates` from `trade_rec.py` (lines 7-27), with dates
represented as integer day offsets from today. The sorted dates are cut at
the first one at least 45 days out (inclusive); if none qualifies the
function raises (modelled `none`); a leading entry equal to today is
dropped. -/
def filter_dates (offsets : List ℤ) : Option (List ℤ) :=
  let sorted := List.insertionSort (· ≤ ·) offsets
  match sorted.findIdx? (fun d => decide (45 ≤ d)) with
  | none => none
  | some i =>
    let arr := sorted.take (i + 1)
    if arr.head? = some 0 then some arr.tail else some arr

/-- Embedding of `trade_rec.py` line 199:
`ts_slope_0_45 = (term_spline(45) - term_spline(dtes[0])) / (45 - dtes[0])`.
The division is unguarded in the source; Python raises `ZeroDivisionError`
when `45 - dtes[0] == 0`, modelled as `Except.error`. -/
def ts_slope_0_45 (term_spline : ℚ → ℚ) (first_dte : ℚ) : Except String ℚ :=
  if (45 : ℚ) - first_dte = 0 then Except.error "ZeroDivisionError"
  else Except.ok ((term_spline 45 - term_spline first_dte) / (45 - first_dte))

/-! ## Term structure builder (trade_rec_v2.py, build_term_structure, lines 105-138)

The v2 builder deduplicates `(days, iv)` points with a Python dict (last
value wins per day count), sorts the distinct day counts, degenerates to a
constant function for fewer than 2 distinct day counts (0.2 when there are
no points), and otherwise wraps a linear `interp1d` spline with clamping
at the boundary knots. Day counts and IVs are modelled as `ℚ`. -/

/-- The IV kept for day count `d` after the dict-based deduplication
`unique_data[d] = iv` over the input in order: the last IV seen for `d`. -/
def lastIV (pts : List (ℚ × ℚ)) (d : ℚ) : ℚ :=
  ((pts.filter (fun p => p.1 = d)).map Prod.snd).getLastD 0

/-- `sorted(unique_data.keys())`: the distinct day counts in ascending
order. -/
def sortedKeys (pts : List (ℚ × ℚ)) : List ℚ :=
  List.insertionSort (· ≤ ·) (pts.map Prod.fst).dedup

/-- The deduplicated, ascending `(days, ivs)` arrays rebuilt as a list of
pairs: `days = sorted keys`, `ivs = [unique_data[d] for d in days]`. -/
def dedupSorted (pts : List (ℚ × ℚ)) : List (ℚ × ℚ) :=
  (sortedKeys pts).map (fun d => (d, lastIV pts d))

/-- Value at `x` of the line through the points `p` and `q`. -/
def segEval (p q : ℚ × ℚ) (x : ℚ) : ℚ :=
  p.2 + (q.2 - p.2) * (x - p.1) / (q.1 - p.1)

/-- Embedding of scipy `interp1d(days, ivs, kind='linear',
fill_value="extrapolate")` over knots with ascending keys: locate the
first segment whose right endpoint is at least `x` and evaluate its line;
queries beyond the ends use the first resp. last segment's line. -/
def interpLinear : List (ℚ × ℚ) → ℚ → ℚ
  | [], _ => 0
  | [p], _ => p.2
  | [p, q], x => segEval p q x
  | p :: q :: c :: rest, x =>
    if x ≤ q.1 then segEval p q x
    else interpLinear (q :: c :: rest) x

/-- Embedding of the inner `term_spline` wrapper (`trade_rec_v2.py` lines
130-136): queries below the first knot return the first IV, above the
last knot the last IV, and inside the range the spline value. -/
def term_spline (knots : List (ℚ × ℚ)) (dte : ℚ) : ℚ :=
  if dte < (knots.headD (0, 0)).1 then (knots.headD (0, 0)).2
  else if dte > (knots.getLastD (0, 0)).1 then (knots.getLastD (0, 0)).2
  else interpLinear knots dte

/-- Embedding of `build_term_structure` from `trade_rec_v2.py` (lines
105-138): deduplicate keeping the last IV per day count and sort; with
fewer than 2 distinct day counts return the constant function at the
single IV (0.2 when there are no points at all); if all day counts are
identical return the constant first IV (`np.allclose` check, modelled with
exact equality); otherwise return the clamped linear spline. -/
def build_term_structure (pts : List (ℚ × ℚ)) : ℚ → ℚ :=
  if (dedupSorted pts).length < 2 then
    fun _ => ((dedupSorted pts).headD (0, 0.2)).2
  else if (dedupSorted pts).all (fun p => p.1 = ((dedupSorted pts).headD (0, 0)).1) then
    fun _ => ((dedupSorted pts).headD (0, 0)).2
  else fun dte => term_spline (dedupSorted pts) dte

/-! ## Batch sorting of rated symbols (earnings_calendar.py, lines 262-280)

The batch screener sorts the rated rows by `rating_sort` (0 for Go, 1 for
Consider) ascending and by `sort_move` (the numeric expected move, 0 when
missing or not a percentage string) descending, with pandas
`sort_values` on multiple keys, which is a stable lexicographic sort. -/

/-- A rated output row: its rating and its expected move (numeric value of
the percentage string, `none` when missing). -/
structure RecRow where
  rating : Rating
  expected_move : Option ℚ
deriving DecidableEq

/-- `rating_sort` column: `0 if x == 'Go' else 1`. -/
def rating_sort (r : RecRow) : ℕ := if r.rating = Rating.Go then 0 else 1

/-- `sort_move` column: the parsed percentage value, `0` when the expected
move is missing or not a percentage string. -/
def sort_move (r : RecRow) : ℚ :=
  match r.expected_move with
  | some v => v
  | none => 0

/-- The full sort key of a row. -/
def recKey (r : RecRow) : ℕ × ℚ := (rating_sort r, sort_move r)

/-- The sort order used by
`sort_values(['rating_sort', 'sort_move'], ascending=[True, False])`:
lexicographic on `rating_sort` ascending then `sort_move` descending. -/
def recLE (a b : RecRow) : Prop :=
  rating_sort a < rating_sort b ∨
    (rating_sort a = rating_sort b ∧ sort_move b ≤ sort_move a)

instance : DecidableRel recLE := fun a b => by
  unfold recLE
  infer_instance

instance recLE_total : IsTotal RecRow recLE where
  total a b := by
    unfold recLE
    rcases lt_trichotomy (rating_sort a) (rating_sort b) with h | h | h
    · exact Or.inl (Or.inl h)
    · rcases le_total (sort_move b) (sort_move a) with hm | hm
      · exact Or.inl (Or.inr ⟨h, hm⟩)
      · exact Or.inr (Or.inr ⟨h.symm, hm⟩)
    · exact Or.inr (Or.inl h)

instance recLE_trans : IsTrans RecRow recLE where
  trans a b c hab hbc := by
    unfold recLE at *
    rcases hab with h1 | ⟨h1, m1⟩
    · rcases hbc with h2 | ⟨h2, m2⟩
      · exact Or.inl (h1.trans h2)
      · exact Or.inl (h2 ▸ h1)
    · rcases hbc with h2 | ⟨h2, m2⟩
      · exact Or.inl (h1 ▸ h2)
      · exact Or.inr ⟨h1.trans h2, m2.trans m1⟩

/-- Embedding of the batch sort: a stable sort by `recLE` (pandas
`sort_values` on a list of keys uses a stable lexicographic sort). -/
def sort_recommendations (l : List RecRow) : List RecRow :=
  List.insertionSort recLE l

/-! ## ATM selection (trade_rec.py, compute_recommendation, lines 146-162)

For each expiration with non-empty call and put sides, the code selects
`call_idx = (calls['strike'] - underlying_price).abs().idxmin()` (pandas
`idxmin` returns the first index attaining the minimum) and likewise for
puts, then averages the two implied volatilities. -/

/-- One option quote row of a chain side: its strike and implied
volatility. -/
structure OptionQuote where
  strike : ℚ
  impliedVolatility : ℚ
deriving DecidableEq

/-- Embedding of `(side['strike'] - underlying_price).abs().idxmin()`: the
first index of the side whose strike has minimal absolute distance to the
underlying price. -/
def idxmin_strike : List OptionQuote → ℚ → ℕ
  | [], _ => 0
  | x :: xs, p =>
    if xs = [] then 0
    else
      let j := idxmin_strike xs p
      if |(xs.getD j ⟨0, 0⟩).strike - p| < |x.strike - p| then j + 1 else 0

/-- Embedding of the per-expiration ATM step: skip (return `none`) when
either side is empty, else average the implied volatilities of the
first-minimal-distance call and put. -/
def atm_iv_of_chain : List OptionQuote → List OptionQuote → ℚ → Option ℚ
  | [], _, _ => none
  | _, [], _ => none
  | c :: ct, q :: qt, underlying_price =>
    some ((((c :: ct).getD (idxmin_strike (c :: ct) underlying_price) ⟨0, 0⟩).impliedVolatility +
           ((q :: qt).getD (idxmin_strike (q :: qt) underlying_price) ⟨0, 0⟩).impliedVolatility) / 2)

/-! ## Yang-Zhang realized volatility (trade_rec.py, yang_zhang, lines 30-75)

With fewer than `window + 1` bars the function returns `np.nan`
("volatility unavailable", modelled `none`). Otherwise it builds the
log-return series (the shifted series are undefined at row 0), takes
rolling sums over `window` rows scaled by `1 / (window - 1)`, and returns
the value at the last row:
`sqrt(open_vol + k * close_vol + (1 - k) * window_rs) * sqrt(trading_periods)`.
For `length ≥ window + 1` the last rolling window spans rows
`length - window .. length - 1`, which never includes row 0, so the
embedded formula sums exactly those rows. Prices are `ℚ`; the logs and
square roots live in `ℝ`. -/

/-- One daily OHLC price bar. -/
structure PriceBar where
  Open : ℚ
  High : ℚ
  Low : ℚ
  Close : ℚ
deriving DecidableEq

/-- A fully populated, coherent bar: positive prices, the high at least
`max(open, close)` and the low at most `min(open, close)`. -/
def ValidBar (b : PriceBar) : Prop :=
  0 < b.Open ∧ 0 < b.High ∧ 0 < b.Low ∧ 0 < b.Close ∧
  b.Open ≤ b.High ∧ b.Close ≤ b.High ∧ b.Low ≤ b.Open ∧ b.Low ≤ b.Close

instance (b : PriceBar) : Decidable (ValidBar b) := by
  unfold ValidBar
  infer_instance

/-- Row access into the bar series (all indices used by the guarded
formula are in range, so the default is never observed). -/
def barD (bars : List PriceBar) (i : ℕ) : PriceBar := bars.getD i ⟨1, 1, 1, 1⟩

/-- Rogers-Satchell term of one bar:
`log_ho * (log_ho - log_co) + log_lo * (log_lo - log_co)`. -/
noncomputable def rsBar (b : PriceBar) : ℝ :=
  Real.log ((b.High : ℝ) / b.Open) * (Real.log ((b.High : ℝ) / b.Open) - Real.log ((b.Close : ℝ) / b.Open)) +
  Real.log ((b.Low : ℝ) / b.Open) * (Real.log ((b.Low : ℝ) / b.Open) - Real.log ((b.Close : ℝ) / b.Open))

/-- Squared overnight log-return `log(open_t / close_(t-1))^2` at row `i ≥ 1`. -/
noncomputable def log_oc_sq (bars : List PriceBar) (i : ℕ) : ℝ :=
  (Real.log (((barD bars i).Open : ℝ) / (barD bars (i - 1)).Close)) ^ 2

/-- Squared close-to-close log-return `log(close_t / close_(t-1))^2` at row `i ≥ 1`. -/
noncomputable def log_cc_sq (bars : List PriceBar) (i : ℕ) : ℝ :=
  (Real.log (((barD bars i).Close : ℝ) / (barD bars (i - 1)).Close)) ^ 2

/-- Rogers-Satchell series at row `i`. -/
noncomputable def rs (bars : List PriceBar) (i : ℕ) : ℝ := rsBar (barD bars i)

/-- The last rolling-window sum: `series.rolling(w).sum()` evaluated at the
final row sums rows `length - w .. length - 1`. -/
noncomputable def lastWindowSum (bars : List PriceBar) (w : ℕ) (f : ℕ → ℝ) : ℝ :=
  ∑ j ∈ Finset.range w, f (bars.length - w + j)

/-- `close_vol`: rolling sum of squared close-to-close returns times
`1 / (window - 1)`, at the last row. -/
noncomputable def close_vol (bars : List PriceBar) (w : ℕ) : ℝ :=
  lastWindowSum bars w (log_cc_sq bars) * (1 / ((w : ℝ) - 1))

/-- `open_vol`: rolling sum of squared overnight returns times
`1 / (window - 1)`, at the last row. -/
noncomputable def open_vol (bars : List PriceBar) (w : ℕ) : ℝ :=
  lastWindowSum bars w (log_oc_sq bars) * (1 / ((w : ℝ) - 1))

/-- `window_rs`: rolling sum of the Rogers-Satchell series times
`1 / (window - 1)`, at the last row. -/
noncomputable def window_rs (bars : List PriceBar) (w : ℕ) : ℝ :=
  lastWindowSum bars w (rs bars) * (1 / ((w : ℝ) - 1))

/-- The Yang-Zhang weight `k = 0.34 / (1.34 + (window + 1) / (window - 1))`
(Python true division on the integer window). -/
noncomputable def yz_k (w : ℕ) : ℝ := 0.34 / (1.34 + ((w : ℝ) + 1) / ((w : ℝ) - 1))

/-- The quantity under the square root at the last row:
`open_vol + k * close_vol + (1 - k) * window_rs`. -/
noncomputable def yz_radicand (bars : List PriceBar) (w : ℕ) : ℝ :=
  open_vol bars w + yz_k w * close_vol bars w + (1 - yz_k w) * window_rs bars w

/-- Embedding of `yang_zhang` with `return_last_only=True`: `none` (the
`np.nan` outcome) when fewer than `window + 1` bars are given, otherwise
the annualized estimate at the last rolling row. -/
noncomputable def yang_zhang (bars : List PriceBar) (window trading_periods : ℕ) : Option ℝ :=
  if bars.length < window + 1 then none
  else some (Real.sqrt (yz_radicand bars window) * Real.sqrt (trading_periods : ℝ))

/-- How the caller consumes the realized volatility
(`iv30_rv30 = term_spline(30) / yang_zhang(price_history)` followed by
`iv30_rv30 >= 1.25`): when the estimator returned `np.nan` the division
is `nan` and the comparison is False, modelled as an unavailable (`none`)
realized volatility making the flag False. -/
def iv30_rv30_flag_rv (term30 : ℝ) (rv : Option ℝ) : Prop :=
  match rv with
  | none => False
  | some v => 1.25 ≤ term30 / v

/-! ## Theorems for claims C1, C9, C10, C2 -/

/-- C1: for every combination of the three boolean signals, the rating
assigned by the code's rating loop (`assign_rating`, embedded from
`earnings_calendar.py` lines 242-253) agrees exactly with the spec's rule
(`spec_rating`): no rating when `slope_flag` is false; Go when both
`avg_volume_flag` and `iv30_rv30_flag` hold; Consider when at least one
holds; otherwise no rating. Moreover on the spec's example
(`avg_volume = 2000000`, `iv30_rv30 = 1.3`, `slope = -0.005`) the computed
flags yield the rating Go. -/
theorem rating_matches_spec :
    (∀ s a v : Bool, assign_rating s a v = spec_rating s a v) ∧
    assign_rating (slope_flag_of (-0.005)) (avg_volume_flag_of 2000000)
      (iv30_rv30_flag_of 1.3) = some Rating.Go := by
  constructor
  · intro s a v
    cases s <;> cases a <;> cases v <;> rfl
  · have hs : slope_flag_of (-0.005) = true := by
      unfold slope_flag_of
      norm_num
    have ha : avg_volume_flag_of 2000000 = true := by
      unfold avg_volume_flag_of
      norm_num
    have hv : iv30_rv30_flag_of 1.3 = true := by
      unfold iv30_rv30_flag_of
      norm_num
    rw [hs, ha, hv]
    rfl

/-- C9 counterexample: the market-cap gate of `earnings_calendar.py`
returns False (the symbol is excluded) on empty market-cap text, at
threshold 750, contradicting the claim that unavailable data always leads
to inclusion. -/
theorem market_cap_empty_excludes :
    is_market_cap_over_threshold CapText.empty 750 = false := rfl

/-- C9 (amended): the two variants disagree on unavailable market-cap
data. The text-parsing gate of `earnings_calendar.py` returns False on
empty and on unparseable text (the symbol is excluded), for every
threshold; the IB-based gate of `earnings_calendar_v2.py` returns True
(the symbol is included) whenever the market cap is unavailable, for every
threshold. -/
theorem market_cap_unavailable_policy :
    (∀ thr : ℚ, is_market_cap_over_threshold CapText.empty thr = false) ∧
    (∀ thr : ℚ, is_market_cap_over_threshold CapText.unparseable thr = false) ∧
    (∀ thr : ℚ, ib_is_market_cap_over_threshold none thr = true) := by
  refine ⟨fun thr => rfl, fun thr => rfl, fun thr => rfl⟩

/-- C10: the expected-move output is `none` exactly when the straddle is
unavailable or its computed value is exactly 0, because the source guards
on the truthiness of `straddle`, not on its presence. -/
theorem expected_move_none_iff :
    ∀ (s : Option ℚ) (p : ℚ),
      expected_move_of s p = none ↔ s = none ∨ s = some 0 := by
  intro s p
  cases s with
  | none => simp [expected_move_of]
  | some v =>
    by_cases hv : v = 0
    · subst hv
      simp [expected_move_of]
    · simp [expected_move_of, hv]

/-- C2: the slope computation of `trade_rec.py` line 199 is not guarded
against division by zero. The input is reachable: `filter_dates` keeps a
single expiration exactly 45 days out (`filter_dates [45] = some [45]`, so
`dtes[0] = 45`), and on it the computation raises `ZeroDivisionError` for
every term structure, instead of surfacing the slope signal as
unavailable. -/
theorem slope_divzero_unguarded :
    filter_dates [45] = some [45] ∧
    ∀ f : ℚ → ℚ, ts_slope_0_45 f 45 = Except.error "ZeroDivisionError" := by
  constructor
  · rfl
  · intro f
    simp [ts_slope_0_45]

/-! ## Theorems for claims C3 and C4 -/

/-- Helper: the sorted distinct day counts are strictly increasing. -/
lemma sortedKeys_strict (pts : List (ℚ × ℚ)) : List.Pairwise (· < ·) (sortedKeys pts) :=
  List.Sorted.lt_of_le (List.sorted_insertionSort _ _)
    ((List.perm_insertionSort _ _).nodup_iff.mpr (List.nodup_dedup _))

/-- Helper: the deduplicated knot list has strictly increasing keys. -/
lemma dedupSorted_strict (pts : List (ℚ × ℚ)) :
    List.Pairwise (fun p q : ℚ × ℚ => p.1 < q.1) (dedupSorted pts) := by
  unfold dedupSorted
  rw [List.pairwise_map]
  exact sortedKeys_strict pts

/-- Helper: dropping the head of a list with at least two elements does not
change `getLastD`. -/
lemma getLastD_cons_cons (a b : ℚ × ℚ) (l : List (ℚ × ℚ)) (d : ℚ × ℚ) :
    (a :: b :: l).getLastD d = (b :: l).getLastD d := by
  simp [List.getLastD_cons]

/-- Helper: in a knot list with strictly increasing keys, the first key is
at most the last key. -/
lemma headD_le_getLastD (l : List (ℚ × ℚ))
    (h : List.Pairwise (fun p q : ℚ × ℚ => p.1 < q.1) l) :
    (l.headD (0, 0)).1 ≤ (l.getLastD (0, 0)).1 := by
  induction l with
  | nil => simp
  | cons a t ih =>
    cases t with
    | nil => simp
    | cons b t2 =>
      have hab : a.1 < b.1 := (List.pairwise_cons.mp h).1 b (by simp)
      have ht := ih (List.pairwise_cons.mp h).2
      rw [List.headD_cons, getLastD_cons_cons]
      exact le_trans hab.le (by simpa using ht)

/-- Helper: on a knot list with strictly increasing keys, a query between
the first and last key is evaluated by `interpLinear` on a bracketing
adjacent pair of knots, as the line through those two knots. -/
lemma interpLinear_bracket (knots : List (ℚ × ℚ)) :
    List.Pairwise (fun p q : ℚ × ℚ => p.1 < q.1) knots →
    ∀ x : ℚ, 2 ≤ knots.length →
    (knots.headD (0, 0)).1 ≤ x → x ≤ (knots.getLastD (0, 0)).1 →
    ∃ i : ℕ, i + 1 < knots.length ∧
      (knots.getD i (0, 0)).1 ≤ x ∧ x ≤ (knots.getD (i + 1) (0, 0)).1 ∧
      interpLinear knots x = segEval (knots.getD i (0, 0)) (knots.getD (i + 1) (0, 0)) x := by
  induction knots with
  | nil => intro _ x h2 _ _; simp at h2
  | cons p tail ih =>
    cases tail with
    | nil => intro _ x h2 _ _; simp at h2
    | cons q rest =>
      intro hs x h2 hlo hhi
      by_cases hx : x ≤ q.1
      · refine ⟨0, by simp, by simpa using hlo, by simpa using hx, ?_⟩
        cases rest with
        | nil => simp [interpLinear]
        | cons c rest2 => simp [interpLinear, if_pos hx]
      · cases rest with
        | nil => exact absurd (by simpa using hhi) hx
        | cons c rest2 =>
          have hs' : List.Pairwise (fun p q : ℚ × ℚ => p.1 < q.1) (q :: c :: rest2) :=
            (List.pairwise_cons.mp hs).2
          have hlo' : ((q :: c :: rest2).headD (0, 0)).1 ≤ x := by
            simpa using (le_of_lt (lt_of_not_le hx))
          have hhi' : x ≤ ((q :: c :: rest2).getLastD (0, 0)).1 := by
            rw [getLastD_cons_cons] at hhi
            exact hhi
          obtain ⟨i, hilen, hile, hige, heq⟩ := ih hs' x (by simp) hlo' hhi'
          refine ⟨i + 1, ?_, ?_, ?_, ?_⟩
          · simpa using Nat.succ_lt_succ (by simpa using hilen)
          · simpa [List.getD_cons_succ] using hile
          · simpa [List.getD_cons_succ] using hige
          · have hstep : interpLinear (p :: q :: c :: rest2) x = interpLinear (q :: c :: rest2) x := by
              simp [interpLinear, if_neg hx]
            rw [hstep, heq]
            simp [List.getD_cons_succ]

/-- Helper: with at least 2 distinct day counts, the builder takes the
spline branch (neither degenerate branch fires). -/
lemma build_eq_spline (pts : List (ℚ × ℚ)) (h2 : 2 ≤ (dedupSorted pts).length) :
    build_term_structure pts = fun dte => term_spline (dedupSorted pts) dte := by
  have hstrict := dedupSorted_strict pts
  obtain ⟨a, b, t, hEq⟩ : ∃ a b t, dedupSorted pts = a :: b :: t := by
    match hk : dedupSorted pts with
    | [] => rw [hk] at h2; simp at h2
    | [a] => rw [hk] at h2; simp at h2
    | a :: b :: t => exact ⟨a, b, t, rfl⟩
  have hab : a.1 < b.1 := by
    rw [hEq] at hstrict
    exact (List.pairwise_cons.mp hstrict).1 b (by simp)
  unfold build_term_structure
  rw [if_neg (by omega)]
  rw [if_neg ?hall]
  case hall =>
    intro hall
    rw [hEq] at hall
    simp [List.all_cons] at hall
    exact absurd hall.1 (ne_of_gt hab)

/-- Helper: the deduplicated knots of the spec's two-point example. -/
lemma dedup_example :
    dedupSorted [((10 : ℚ), (0.2 : ℚ)), (50, 0.4)] = [(10, 0.2), (50, 0.4)] := by
  norm_num [dedupSorted, sortedKeys, lastIV, List.insertionSort, List.orderedInsert]

/-- C3: for every term structure built from at least 2 distinct day
counts, a query below the minimum knot returns the IV at the minimum knot,
a query above the maximum knot returns the IV at the maximum knot, and a
query inside the range is bracketed by an adjacent pair of sorted knots
and evaluates to the linear interpolation between them; on the points
`[(10, 0.2), (50, 0.4)]`: `term(30) = 0.3`, `term(5) = 0.2`,
`term(100) = 0.4`. -/
theorem term_structure_eval (pts : List (ℚ × ℚ)) (h2 : 2 ≤ (dedupSorted pts).length) :
    (∀ dte : ℚ, dte < ((dedupSorted pts).headD (0, 0)).1 →
       build_term_structure pts dte = ((dedupSorted pts).headD (0, 0)).2) ∧
    (∀ dte : ℚ, ((dedupSorted pts).getLastD (0, 0)).1 < dte →
       build_term_structure pts dte = ((dedupSorted pts).getLastD (0, 0)).2) ∧
    (∀ dte : ℚ, ((dedupSorted pts).headD (0, 0)).1 ≤ dte →
       dte ≤ ((dedupSorted pts).getLastD (0, 0)).1 →
       ∃ i : ℕ, i + 1 < (dedupSorted pts).length ∧
         ((dedupSorted pts).getD i (0, 0)).1 ≤ dte ∧
         dte ≤ ((dedupSorted pts).getD (i + 1) (0, 0)).1 ∧
         build_term_structure pts dte =
           segEval ((dedupSorted pts).getD i (0, 0)) ((dedupSorted pts).getD (i + 1) (0, 0)) dte) ∧
    build_term_structure [(10, 0.2), (50, 0.4)] 30 = 0.3 ∧
    build_term_structure [(10, 0.2), (50, 0.4)] 5 = 0.2 ∧
    build_term_structure [(10, 0.2), (50, 0.4)] 100 = 0.4 := by
  have hb := build_eq_spline pts h2
  have hstrict := dedupSorted_strict pts
  have hex2 : 2 ≤ (dedupSorted [((10 : ℚ), (0.2 : ℚ)), (50, 0.4)]).length := by
    rw [dedup_example]; simp
  have hbe := build_eq_spline _ hex2
  refine ⟨?_, ?_, ?_, ?_, ?_, ?_⟩
  · intro dte h
    rw [hb]
    show term_spline (dedupSorted pts) dte = _
    unfold term_spline
    rw [if_pos h]
  · intro dte h
    rw [hb]
    show term_spline (dedupSorted pts) dte = _
    unfold term_spline
    rw [if_neg (by exact not_lt.mpr (le_trans (headD_le_getLastD _ hstrict) h.le)), if_pos h]
  · intro dte hlo hhi
    obtain ⟨i, hilen, hile, hige, heq⟩ := interpLinear_bracket _ hstrict dte h2 hlo hhi
    refine ⟨i, hilen, hile, hige, ?_⟩
    rw [hb]
    show term_spline (dedupSorted pts) dte = _
    unfold term_spline
    rw [if_neg (not_lt.mpr hlo), if_neg (not_lt.mpr hhi)]
    exact heq
  · rw [hbe, dedup_example]
    norm_num [term_spline, interpLinear, segEval]
  · rw [hbe, dedup_example]
    norm_num [term_spline, interpLinear, segEval]
  · rw [hbe, dedup_example]
    norm_num [term_spline, interpLinear, segEval]

/-- C3 witness: the two-point example has 2 distinct day counts and the
midpoint query evaluates to 0.3 by the claim theorem. -/
theorem term_structure_eval_spot :
    2 ≤ (dedupSorted [((10 : ℚ), (0.2 : ℚ)), (50, 0.4)]).length ∧
    build_term_structure [(10, 0.2), (50, 0.4)] 30 = 0.3 := by
  have h2 : 2 ≤ (dedupSorted [((10 : ℚ), (0.2 : ℚ)), (50, 0.4)]).length := by
    rw [dedup_example]; simp
  exact ⟨h2, (term_structure_eval [(10, 0.2), (50, 0.4)] h2).2.2.2.1⟩

/-- C4: when fewer than 2 distinct day counts remain after the last-wins
deduplication, the builder returns the constant function at the single
remaining IV, 0.2 when there are no points at all; in particular
`build([])` is constantly 0.2 and `build([(10, 0.2), (10, 0.5)])` is
constantly 0.5 (last value wins). -/
theorem term_structure_degenerate (pts : List (ℚ × ℚ)) :
    ((dedupSorted pts).length < 2 →
      ∀ dte : ℚ, build_term_structure pts dte = ((dedupSorted pts).headD (0, 0.2)).2) ∧
    (∀ dte : ℚ, build_term_structure [] dte = 0.2) ∧
    (∀ dte : ℚ, build_term_structure [(10, 0.2), (10, 0.5)] dte = 0.5) := by
  refine ⟨?_, ?_, ?_⟩
  · intro h dte
    unfold build_term_structure
    rw [if_pos h]
  · intro dte
    norm_num [build_term_structure, dedupSorted, sortedKeys, lastIV]
  · intro dte
    norm_num [build_term_structure, dedupSorted, sortedKeys, lastIV,
      List.insertionSort, List.orderedInsert]

/-- C4 witness: the duplicate-day example collapses to a single knot and
the builder is the constant function at its (last-wins) IV. -/
theorem term_structure_degenerate_spot :
    (dedupSorted [((10 : ℚ), (0.2 : ℚ)), (10, 0.5)]).length < 2 ∧
    build_term_structure [(10, 0.2), (10, 0.5)] 37 =
      ((dedupSorted [((10 : ℚ), (0.2 : ℚ)), (10, 0.5)]).headD (0, 0.2)).2 := by
  have hlen : (dedupSorted [((10 : ℚ), (0.2 : ℚ)), (10, 0.5)]).length < 2 := by
    norm_num [dedupSorted, sortedKeys, lastIV, List.insertionSort, List.orderedInsert]
  exact ⟨hlen, (term_structure_degenerate [(10, 0.2), (10, 0.5)]).1 hlen 37⟩

/-! ## Theorems for claim C8 -/

/-- Helper: rows with equal sort keys are related by the sort order. -/
lemma recKey_eq_recLE {a b : RecRow} (h : recKey a = recKey b) : recLE a b := by
  unfold recKey at h
  have h1 : rating_sort a = rating_sort b := (Prod.mk.injEq _ _ _ _ ▸ h).1
  have h2 : sort_move a = sort_move b := (Prod.mk.injEq _ _ _ _ ▸ h).2
  exact Or.inr ⟨h1, le_of_eq h2.symm⟩

/-- Helper: inserting a row keeps the subsequence of any fixed sort key
intact, with the new row in front of its equals. -/
lemma filter_orderedInsert (k : ℕ × ℚ) (x : RecRow) (s : List RecRow) :
    (List.orderedInsert recLE x s).filter (fun r => recKey r = k) =
      if recKey x = k then x :: s.filter (fun r => recKey r = k)
      else s.filter (fun r => recKey r = k) := by
  induction s with
  | nil =>
    by_cases hk : recKey x = k
    · simp [List.orderedInsert, List.filter, hk]
    · simp [List.orderedInsert, List.filter, hk]
  | cons y t ih =>
    by_cases hxy : recLE x y
    · rw [List.orderedInsert_of_le _ _ hxy]
      by_cases hk : recKey x = k
      · simp [List.filter, hk]
      · simp [List.filter_cons, hk]
    · have hstep : List.orderedInsert recLE x (y :: t) = y :: List.orderedInsert recLE x t := by
        simp [List.orderedInsert, hxy]
      rw [hstep]
      by_cases hyk : recKey y = k
      · by_cases hk : recKey x = k
        · exact absurd (recKey_eq_recLE (hk.trans hyk.symm)) hxy
        · simp [List.filter_cons, hyk, ih, hk]
      · simp [List.filter_cons, hyk, ih]

/-- Helper: stability of the batch sort, as the classic filter
characterization: for every value of the sort key, the rows carrying that
key appear in the output in exactly their input order. -/
lemma filter_sort (k : ℕ × ℚ) (l : List RecRow) :
    (sort_recommendations l).filter (fun r => recKey r = k) =
      l.filter (fun r => recKey r = k) := by
  induction l with
  | nil => rfl
  | cons x t ih =>
    unfold sort_recommendations at *
    rw [List.insertionSort]
    rw [filter_orderedInsert]
    by_cases hk : recKey x = k
    · simp [List.filter_cons, hk, ih]
    · simp [List.filter_cons, hk, ih]

/-- C8: the batch sort outputs a permutation of its input that is sorted
with every Go-rated row before every Consider-rated row and, within equal
`rating_sort`, by expected move descending (missing treated as 0); rows
with identical sort keys keep their input order (filter characterization
of stability); on the spec's example the ratings
`[Consider(2), Go(1), Go(5)]` are returned as `[Go(5), Go(1), Consider(2)]`. -/
theorem batch_sort_behaviour :
    (∀ l : List RecRow, (sort_recommendations l).Perm l) ∧
    (∀ l : List RecRow, List.Sorted recLE (sort_recommendations l)) ∧
    (∀ (k : ℕ × ℚ) (l : List RecRow),
      (sort_recommendations l).filter (fun r => recKey r = k) =
        l.filter (fun r => recKey r = k)) ∧
    sort_recommendations
        [⟨Rating.Consider, some 2⟩, ⟨Rating.Go, some 1⟩, ⟨Rating.Go, some 5⟩] =
      [⟨Rating.Go, some 5⟩, ⟨Rating.Go, some 1⟩, ⟨Rating.Consider, some 2⟩] := by
  refine ⟨?_, ?_, filter_sort, ?_⟩
  · intro l
    exact List.perm_insertionSort recLE l
  · intro l
    exact List.sorted_insertionSort recLE l
  · decide

/-! ## Theorems for claim C7 -/

/-- Helper: the selected index is in range for a non-empty side. -/
theorem idxmin_strike_lt (l : List OptionQuote) (p : ℚ) (h : l ≠ []) :
    idxmin_strike l p < l.length := by
  induction l with
  | nil => exact absurd rfl h
  | cons x xs ih =>
    unfold idxmin_strike
    by_cases hxs : xs = []
    · simp [hxs]
    · rw [if_neg hxs]
      by_cases hc : |(xs.getD (idxmin_strike xs p) ⟨0, 0⟩).strike - p| < |x.strike - p|
      · rw [if_pos hc]
        simpa using Nat.succ_lt_succ (ih hxs)
      · rw [if_neg hc]
        simp

/-- Helper: the selected strike minimizes the absolute distance to the
underlying price over the whole side. -/
theorem idxmin_strike_min (l : List OptionQuote) (p : ℚ) (k : ℕ) (hk : k < l.length) :
    |(l.getD (idxmin_strike l p) ⟨0, 0⟩).strike - p| ≤ |(l.getD k ⟨0, 0⟩).strike - p| := by
  induction l generalizing k with
  | nil => simp at hk
  | cons x xs ih =>
    unfold idxmin_strike
    by_cases hxs : xs = []
    · subst hxs
      simp at hk
      subst hk
      simp
    · rw [if_neg hxs]
      by_cases hc : |(xs.getD (idxmin_strike xs p) ⟨0, 0⟩).strike - p| < |x.strike - p|
      · rw [if_pos hc]
        cases k with
        | zero => simpa using hc.le
        | succ k2 =>
          rw [List.getD_cons_succ, List.getD_cons_succ]
          exact ih k2 (by simpa using hk)
      · rw [if_neg hc]
        cases k with
        | zero => simp
        | succ k2 =>
          rw [List.getD_cons_succ]
          simp only [List.getD_cons_zero]
          exact le_trans (not_lt.mp hc) (ih k2 (by simpa using hk))

/-- Helper: every index before the selected one has a strictly larger
distance, i.e. the first minimal index is selected (pandas `idxmin`
tie-breaking). -/
theorem idxmin_strike_firstmin (l : List OptionQuote) (p : ℚ) (k : ℕ)
    (hk : k < idxmin_strike l p) :
    |(l.getD (idxmin_strike l p) ⟨0, 0⟩).strike - p| < |(l.getD k ⟨0, 0⟩).strike - p| := by
  induction l generalizing k with
  | nil => simp [idxmin_strike] at hk
  | cons x xs ih =>
    unfold idxmin_strike at hk ⊢
    by_cases hxs : xs = []
    · simp [hxs] at hk
    · rw [if_neg hxs] at hk ⊢
      by_cases hc : |(xs.getD (idxmin_strike xs p) ⟨0, 0⟩).strike - p| < |x.strike - p|
      · rw [if_pos hc] at hk ⊢
        cases k with
        | zero => simpa using hc
        | succ k2 =>
          rw [List.getD_cons_succ, List.getD_cons_succ]
          exact ih k2 (by omega)
      · rw [if_neg hc] at hk
        omega

/-- C7: for every expiration whose call and put sides are both non-empty,
the selected call and put indices are in range, minimize the absolute
strike distance to the underlying price, every earlier index has a
strictly larger distance (so the first minimal index is selected), and
the expiration's ATM IV is the arithmetic mean of the selected call's and
put's implied volatilities. -/
theorem atm_selection (calls puts : List OptionQuote) (p : ℚ)
    (hc : calls ≠ []) (hp : puts ≠ []) :
    idxmin_strike calls p < calls.length ∧
    idxmin_strike puts p < puts.length ∧
    (∀ j : ℕ, j < calls.length →
      |(calls.getD (idxmin_strike calls p) ⟨0, 0⟩).strike - p| ≤
        |(calls.getD j ⟨0, 0⟩).strike - p|) ∧
    (∀ j : ℕ, j < idxmin_strike calls p →
      |(calls.getD (idxmin_strike calls p) ⟨0, 0⟩).strike - p| <
        |(calls.getD j ⟨0, 0⟩).strike - p|) ∧
    (∀ j : ℕ, j < puts.length →
      |(puts.getD (idxmin_strike puts p) ⟨0, 0⟩).strike - p| ≤
        |(puts.getD j ⟨0, 0⟩).strike - p|) ∧
    (∀ j : ℕ, j < idxmin_strike puts p →
      |(puts.getD (idxmin_strike puts p) ⟨0, 0⟩).strike - p| <
        |(puts.getD j ⟨0, 0⟩).strike - p|) ∧
    atm_iv_of_chain calls puts p =
      some (((calls.getD (idxmin_strike calls p) ⟨0, 0⟩).impliedVolatility +
             (puts.getD (idxmin_strike puts p) ⟨0, 0⟩).impliedVolatility) / 2) := by
  refine ⟨idxmin_strike_lt calls p hc, idxmin_strike_lt puts p hp,
          fun j hj => idxmin_strike_min calls p j hj,
          fun j hj => idxmin_strike_firstmin calls p j hj,
          fun j hj => idxmin_strike_min puts p j hj,
          fun j hj => idxmin_strike_firstmin puts p j hj, ?_⟩
  obtain ⟨c, ct, rfl⟩ : ∃ c ct, calls = c :: ct := by
    cases calls with
    | nil => exact absurd rfl hc
    | cons c ct => exact ⟨c, ct, rfl⟩
  obtain ⟨q, qt, rfl⟩ : ∃ q qt, puts = q :: qt := by
    cases puts with
    | nil => exact absurd rfl hp
    | cons q qt => exact ⟨q, qt, rfl⟩
  rfl

/-- C7 witness: on a concrete chain with two calls and two puts the ATM
step returns the mean of the selected sides' implied volatilities. -/
theorem atm_selection_spot :
    (([⟨100, 0.55⟩, ⟨105, 0.6⟩] : List OptionQuote) ≠ [] ∧
     ([⟨95, 0.4⟩, ⟨100, 0.45⟩] : List OptionQuote) ≠ []) ∧
    atm_iv_of_chain [⟨100, 0.55⟩, ⟨105, 0.6⟩] [⟨95, 0.4⟩, ⟨100, 0.45⟩] 101 =
      some (((([⟨100, 0.55⟩, ⟨105, 0.6⟩] : List OptionQuote).getD
                (idxmin_strike [⟨100, 0.55⟩, ⟨105, 0.6⟩] 101) ⟨0, 0⟩).impliedVolatility +
             (([⟨95, 0.4⟩, ⟨100, 0.45⟩] : List OptionQuote).getD
                (idxmin_strike [⟨95, 0.4⟩, ⟨100, 0.45⟩] 101) ⟨0, 0⟩).impliedVolatility) / 2) :=
  ⟨⟨by simp, by simp⟩,
   (atm_selection [⟨100, 0.55⟩, ⟨105, 0.6⟩] [⟨95, 0.4⟩, ⟨100, 0.45⟩] 101
     (by simp) (by simp)).2.2.2.2.2.2⟩

/-! ## Theorems for claims C5 and C6 -/

/-- C5: with fewer than `window + 1` bars the Yang-Zhang estimator returns
the unavailable outcome (`none`, the source's `np.nan`) for every window
and annualization factor, and the caller's `iv30_rv30` flag on an
unavailable realized volatility is false rather than an error. -/
theorem yang_zhang_insufficient :
    (∀ (bars : List PriceBar) (w tp : ℕ),
      bars.length < w + 1 → yang_zhang bars w tp = none) ∧
    (∀ term30 : ℝ, ¬ iv30_rv30_flag_rv term30 none) := by
  constructor
  · intro bars w tp h
    simp [yang_zhang, h]
  · intro term30 h
    exact h

/-- C5 witness: the empty bar list is below the default window and the
estimator returns the unavailable outcome on it. -/
theorem yang_zhang_insufficient_spot :
    ([] : List PriceBar).length < 30 + 1 ∧ yang_zhang [] 30 252 = none :=
  ⟨by decide, yang_zhang_insufficient.1 [] 30 252 (by decide)⟩

/-- Helper: the Rogers-Satchell term of a valid bar is non-negative. -/
lemma rsBar_nonneg (b : PriceBar) (hb : ValidBar b) : 0 ≤ rsBar b := by
  obtain ⟨ho, hh, hl, hc, hoh, hch, hlo, hlc⟩ := hb
  have hoR : (0 : ℝ) < (b.Open : ℚ) := by exact_mod_cast ho
  have hcR : (0 : ℝ) < (b.Close : ℚ) := by exact_mod_cast hc
  have hlR : (0 : ℝ) < (b.Low : ℚ) := by exact_mod_cast hl
  have hohR : ((b.Open : ℚ) : ℝ) ≤ ((b.High : ℚ) : ℝ) := by exact_mod_cast hoh
  have hchR : ((b.Close : ℚ) : ℝ) ≤ ((b.High : ℚ) : ℝ) := by exact_mod_cast hch
  have hloR : ((b.Low : ℚ) : ℝ) ≤ ((b.Open : ℚ) : ℝ) := by exact_mod_cast hlo
  have hlcR : ((b.Low : ℚ) : ℝ) ≤ ((b.Close : ℚ) : ℝ) := by exact_mod_cast hlc
  have h1 : (0 : ℝ) ≤ Real.log ((b.High : ℝ) / b.Open) := by
    apply Real.log_nonneg
    rw [le_div_iff₀ hoR]
    simpa using hohR
  have h2 : Real.log ((b.Close : ℝ) / b.Open) ≤ Real.log ((b.High : ℝ) / b.Open) := by
    apply Real.log_le_log (by positivity)
    exact (div_le_div_iff_of_pos_right hoR).mpr hchR
  have h3 : Real.log ((b.Low : ℝ) / b.Open) ≤ 0 := by
    apply Real.log_nonpos (by positivity)
    rw [div_le_one hoR]
    exact hloR
  have h4 : Real.log ((b.Low : ℝ) / b.Open) ≤ Real.log ((b.Close : ℝ) / b.Open) := by
    apply Real.log_le_log (by positivity)
    exact (div_le_div_iff_of_pos_right hoR).mpr hlcR
  unfold rsBar
  have t1 : (0 : ℝ) ≤ Real.log ((b.High : ℝ) / b.Open) *
      (Real.log ((b.High : ℝ) / b.Open) - Real.log ((b.Close : ℝ) / b.Open)) :=
    mul_nonneg h1 (sub_nonneg.mpr h2)
  have t2 : (0 : ℝ) ≤ Real.log ((b.Low : ℝ) / b.Open) *
      (Real.log ((b.Low : ℝ) / b.Open) - Real.log ((b.Close : ℝ) / b.Open)) :=
    mul_nonneg_iff.mpr (Or.inr ⟨h3, sub_nonpos.mpr h4⟩)
  exact add_nonneg t1 t2

/-- Helper: the overnight-return component is non-negative. -/
lemma open_vol_nonneg (bars : List PriceBar) : 0 ≤ open_vol bars 30 := by
  unfold open_vol lastWindowSum
  apply mul_nonneg
  · apply Finset.sum_nonneg
    intro j hj
    unfold log_oc_sq
    positivity
  · norm_num

/-- Helper: the close-to-close component is non-negative. -/
lemma close_vol_nonneg (bars : List PriceBar) : 0 ≤ close_vol bars 30 := by
  unfold close_vol lastWindowSum
  apply mul_nonneg
  · apply Finset.sum_nonneg
    intro j hj
    unfold log_cc_sq
    positivity
  · norm_num

/-- Helper: the Rogers-Satchell component over the last window of a valid
history is non-negative. -/
lemma window_rs_nonneg (bars : List PriceBar) (hv : ∀ b ∈ bars, ValidBar b)
    (hn : 31 ≤ bars.length) : 0 ≤ window_rs bars 30 := by
  unfold window_rs lastWindowSum
  apply mul_nonneg
  · apply Finset.sum_nonneg
    intro j hj
    unfold rs
    apply rsBar_nonneg
    have hilt : bars.length - 30 + j < bars.length := by
      rw [Finset.mem_range] at hj
      omega
    unfold barD
    rw [List.getD_eq_getElem _ _ hilt]
    exact hv _ (List.getElem_mem hilt)
  · norm_num

/-- Helper: the Yang-Zhang weight at window 30 lies in `[0, 1]`. -/
lemma yz_k_30_bounds : 0 ≤ yz_k 30 ∧ yz_k 30 ≤ 1 := by
  unfold yz_k
  push_cast
  norm_num

/-- C6: on every valid OHLC history of length at least 31, `yang_zhang`
with window 30 returns exactly
`sqrt(open_vol + k * close_vol + (1 - k) * window_rs) * sqrt(252)`
evaluated at the last fully-populated rolling window; the quantity under
the square root is non-negative (so the Python `np.sqrt` produces a finite
number, not `nan`), and the returned value is non-negative. -/
theorem yang_zhang_valid (bars : List PriceBar)
    (hv : ∀ b ∈ bars, ValidBar b) (hn : 31 ≤ bars.length) :
    yang_zhang bars 30 252 =
      some (Real.sqrt (yz_radicand bars 30) * Real.sqrt ((252 : ℕ) : ℝ)) ∧
    0 ≤ yz_radicand bars 30 ∧
    (∀ r : ℝ, yang_zhang bars 30 252 = some r → 0 ≤ r) := by
  have hnlt : ¬ bars.length < 30 + 1 := by omega
  have heq : yang_zhang bars 30 252 =
      some (Real.sqrt (yz_radicand bars 30) * Real.sqrt ((252 : ℕ) : ℝ)) := by
    unfold yang_zhang
    rw [if_neg hnlt]
  have hrad : 0 ≤ yz_radicand bars 30 := by
    unfold yz_radicand
    have h1 := open_vol_nonneg bars
    have h2 := close_vol_nonneg bars
    have h3 := window_rs_nonneg bars hv hn
    have hk := yz_k_30_bounds
    have hm1 := mul_nonneg hk.1 h2
    have hm2 := mul_nonneg (by linarith [hk.2] : (0 : ℝ) ≤ 1 - yz_k 30) h3
    linarith
  refine ⟨heq, hrad, ?_⟩
  intro r hr
  rw [heq] at hr
  have hinj := Option.some.inj hr
  subst hinj
  exact mul_nonneg (Real.sqrt_nonneg _) (Real.sqrt_nonneg _)

/-- C6 witness: a 31-bar constant history is valid and the radicand is
non-negative on it, by the claim theorem. -/
theorem yang_zhang_valid_spot :
    (∀ b ∈ List.replicate 31 (⟨1, 1, 1, 1⟩ : PriceBar), ValidBar b) ∧
    31 ≤ (List.replicate 31 (⟨1, 1, 1, 1⟩ : PriceBar)).length ∧
    0 ≤ yz_radicand (List.replicate 31 ⟨1, 1, 1, 1⟩) 30 := by
  have hv : ∀ b ∈ List.replicate 31 (⟨1, 1, 1, 1⟩ : PriceBar), ValidBar b := by
    intro b hb
    rw [List.eq_of_mem_replicate hb]
    decide
  have hn : 31 ≤ (List.replicate 31 (⟨1, 1, 1, 1⟩ : PriceBar)).length := by simp
  exact ⟨hv, hn, (yang_zhang_valid _ hv hn).2.1⟩
